import Mathlib

/-!
Verification of the blackjack-core engine (`src/blackjack-core/src/`): the
card/value model, hand lifecycle, shoe, payout calculator and the round state
machine, shallowly embedded from the Rust sources.

Conventions used throughout:
* Rust `u8`/`u16`/`u32` quantities are modelled as `Nat`.  Wherever the source
  subtracts, the values in play keep the subtraction exact (noted per use);
  `Nat` truncated subtraction is then identical to the machine arithmetic.
* Rust `Vec<T>` is a Lean `List` in the same front-to-back order; `Vec::pop`
  removes the *last* element (`listPop` below).
* Randomness: `Shoe::draw_card` samples a card ordinal from a weighted
  distribution.  The embedding threads an explicit tape of sampled ordinals
  (`List Nat`); a theorem about a particular draw quantifies over the ordinal.
* `debug_assert!` guards are modelled as `Option`-returning checked variants
  of the hand operations; the raw operations perform the mutation the source
  performs after the assert.
-/

/-- Card suits (card.rs, `Suit`). -/
inductive Suit
  | Clubs | Diamonds | Hearts | Spades
deriving DecidableEq, Repr

/-- Card ranks (card.rs, `Rank`). -/
inductive Rank
  | Two | Three | Four | Five | Six | Seven | Eight | Nine | Ten
  | Jack | Queen | King | Ace
deriving DecidableEq, Repr

/-- Worth of a rank: pips at face value, face cards 10, aces 11
(card.rs, `Rank::worth`). -/
def Rank.worth : Rank → Nat
  | .Two => 2
  | .Three => 3
  | .Four => 4
  | .Five => 5
  | .Six => 6
  | .Seven => 7
  | .Eight => 8
  | .Nine => 9
  | .Ten => 10
  | .Jack => 10
  | .Queen => 10
  | .King => 10
  | .Ace => 11

/-- A card is a rank/suit pair (card.rs, `Card`). -/
structure Card where
  rank : Rank
  suit : Suit
deriving DecidableEq, Repr

/-- Card from its 0-51 ordinal, rank-major then suit (card.rs,
`Card::from_ordinal`).  The source panics for ordinals ≥ 52; the embedding
returns an arbitrary card there (theorems only use ordinals < 52). -/
def Card.from_ordinal (ordinal : Nat) : Card :=
  let rank : Rank :=
    match ordinal / 4 with
    | 0 => .Two
    | 1 => .Three
    | 2 => .Four
    | 3 => .Five
    | 4 => .Six
    | 5 => .Seven
    | 6 => .Eight
    | 7 => .Nine
    | 8 => .Ten
    | 9 => .Jack
    | 10 => .Queen
    | 11 => .King
    | _ => .Ace
  let suit : Suit :=
    match ordinal % 4 with
    | 0 => .Clubs
    | 1 => .Diamonds
    | 2 => .Hearts
    | _ => .Spades
  { rank := rank, suit := suit }

/-- Game value of a hand, e.g. "Soft 20" (card.rs, `hand::Value`). -/
structure Value where
  soft : Bool
  total : Nat
deriving DecidableEq, Repr

/-- Value of a single card (card.rs, `impl From<&Card> for Value`). -/
def Value.fromCard (card : Card) : Value :=
  { soft := card.rank = Rank.Ace, total := card.rank.worth }

/-- Adding a card value to a hand value, deflating soft aces (11 → 1) to avoid
busting where possible (card.rs, `impl AddAssign for Value`).  The `u8`
subtractions `worth - 10` / `self.total - 10` happen only behind a soft flag;
for every value arising in play a soft total is at least 11, so `Nat`
truncated subtraction coincides with the source arithmetic. -/
def Value.add_assign (self rhs : Value) : Value :=
  let soft := rhs.soft
  let worth := rhs.total
  -- Prevent busting by converting the incoming soft ace to a hard ace
  let p : Bool × Nat :=
    if soft && decide (21 < self.total + worth) then (false, worth - 10) else (soft, worth)
  let soft := p.1
  let worth := p.2
  -- Prevent busting by converting the current hand's soft ace to a hard ace
  let q : Bool × Nat :=
    if self.soft && decide (21 < self.total + worth) then (false, self.total - 10)
    else (self.soft, self.total)
  { soft := q.1 || soft, total := q.2 + worth }

/-- The spec's description of value addition, written as it is worded in
§4.1 of the specification: deflate the incoming side if needed, then the
accumulator, then sum; soft iff either side remained soft.  This definition
follows the specification text and is compared against `Value.add_assign`,
which follows the source. -/
def specValueAdd (acc inc : Value) : Value :=
  let inc' : Value :=
    if inc.soft ∧ 21 < acc.total + inc.total then { soft := false, total := inc.total - 10 }
    else inc
  let acc' : Value :=
    if acc.soft ∧ 21 < acc.total + inc'.total then { soft := false, total := acc.total - 10 }
    else acc
  { soft := acc'.soft || inc'.soft, total := acc'.total + inc'.total }

/-- Status of a hand (card.rs, `hand::Status`). -/
inductive Status
  | InPlay | Stood | Bust | Blackjack | Surrendered
deriving DecidableEq, Repr

/-- A status is terminal iff it is not `InPlay`. -/
def Status.isTerminal : Status → Bool
  | .InPlay => false
  | _ => true

/-- Dealer soft-17 policy (rules.rs, `DealerSoft17Action`). -/
inductive DealerSoft17Action
  | Stand | Hit
deriving DecidableEq, Repr

/-- Blackjack payout ratio (rules.rs, `BlackjackPayout`). -/
inductive BlackjackPayout
  | ThreeToTwo | SixToFive
deriving DecidableEq, Repr

/-- The dealer's hand (card.rs, `hand::DealerHand`). -/
structure DealerHand where
  value : Value
  status : Status
  cards : List Card
  soft_17_action : DealerSoft17Action
deriving DecidableEq, Repr

/-- Whether the dealer hits on soft 17 (card.rs, `DealerHand::hits_on_soft_17`). -/
def DealerHand.hits_on_soft_17 (h : DealerHand) : Bool :=
  h.soft_17_action = DealerSoft17Action.Hit

/-- New dealer hand from an up card (card.rs, `DealerHand::new`). -/
def DealerHand.new (card : Card) (soft_17_action : DealerSoft17Action) : DealerHand :=
  { value := Value.fromCard card
    status := .InPlay
    cards := [card]
    soft_17_action := soft_17_action }

/-- Worth of the dealer's up card (card.rs, `DealerHand::showing`). -/
def DealerHand.showing (h : DealerHand) : Nat :=
  (h.cards.headD { rank := .Two, suit := .Clubs }).rank.worth

/-- Adding a card to the dealer's hand and recomputing its status (card.rs,
`impl AddAssign<Card> for DealerHand`).  The source `debug_assert`s the hand
is `InPlay`; this is the raw mutation, `DealerHand.add_assign_checked` models
the assert. -/
def DealerHand.add_assign (h : DealerHand) (card : Card) : DealerHand :=
  let value := h.value.add_assign (Value.fromCard card)
  let cards := h.cards ++ [card]
  let status :=
    if value.soft ∧ value.total = 17 ∧ h.hits_on_soft_17 then Status.InPlay
    else if value.soft ∧ value.total = 21 ∧ cards.length = 2 then Status.Blackjack
    else if 17 ≤ value.total ∧ value.total ≤ 21 then Status.Stood
    else if 22 ≤ value.total then Status.Bust
    else Status.InPlay
  { h with value := value, cards := cards, status := status }

/-- `DealerHand::add_assign` together with its `debug_assert_eq!(status, InPlay)`:
`none` models the assertion tripping. -/
def DealerHand.add_assign_checked (h : DealerHand) (card : Card) : Option DealerHand :=
  if h.status = Status.InPlay then some (h.add_assign card) else none

/-- The status `PlayerHand::add_assign` computes, as a function of the new
total and the new number of cards only (card.rs lines 272-277). -/
def statusFromTotalSize (total size : Nat) : Status :=
  if 22 ≤ total then .Bust
  else if total = 21 ∧ size = 2 then .Blackjack
  else if total = 21 then .Stood
  else .InPlay

/-- A player's hand (card.rs, `hand::PlayerHand`). -/
structure PlayerHand where
  bet : Nat
  value : Value
  status : Status
  cards : List Card
deriving DecidableEq, Repr

/-- New one-card player hand (card.rs, `PlayerHand::new`). -/
def PlayerHand.new (card : Card) (bet : Nat) : PlayerHand :=
  { bet := bet, value := Value.fromCard card, status := .InPlay, cards := [card] }

/-- Number of cards in the hand (card.rs, `PlayerHand::size`). -/
def PlayerHand.size (h : PlayerHand) : Nat :=
  h.cards.length

/-- Whether the hand is a two-card pair of equal rank (card.rs,
`PlayerHand::is_pair`). -/
def PlayerHand.is_pair (h : PlayerHand) : Bool :=
  h.size = 2 ∧ (h.cards.headD { rank := .Two, suit := .Clubs }).rank
    = (h.cards.getLastD { rank := .Two, suit := .Clubs }).rank

/-- Adding a card to the player's hand and recomputing its status (card.rs,
`impl AddAssign<Card> for PlayerHand`): `Bust` at 22+, `Blackjack` at a
two-card 21, `Stood` at any other 21, else still `InPlay`.  Raw mutation; the
source's `debug_assert` is modelled by `PlayerHand.add_assign_checked`. -/
def PlayerHand.add_assign (h : PlayerHand) (card : Card) : PlayerHand :=
  let value := h.value.add_assign (Value.fromCard card)
  let cards := h.cards ++ [card]
  { h with
    value := value
    cards := cards
    status := statusFromTotalSize value.total cards.length }

/-- `PlayerHand::add_assign` with its `debug_assert_eq!(status, InPlay)`. -/
def PlayerHand.add_assign_checked (h : PlayerHand) (card : Card) : Option PlayerHand :=
  if h.status = Status.InPlay then some (h.add_assign card) else none

/-- The player stands (card.rs, `PlayerHand::stand`), raw mutation. -/
def PlayerHand.stand (h : PlayerHand) : PlayerHand :=
  { h with status := .Stood }

/-- `PlayerHand::stand` with its `debug_assert_eq!(status, InPlay)`. -/
def PlayerHand.stand_checked (h : PlayerHand) : Option PlayerHand :=
  if h.status = Status.InPlay then some h.stand else none

/-- The player doubles down: bet doubled, one card added, then stand unless
the card finished the hand (card.rs, `PlayerHand::double`), raw mutation. -/
def PlayerHand.double (h : PlayerHand) (card : Card) : PlayerHand :=
  let h' := { h with bet := h.bet * 2 }
  let h' := h'.add_assign card
  if h'.status = Status.InPlay then { h' with status := .Stood } else h'

/-- `PlayerHand::double` with its `debug_assert!`s (two cards, `InPlay`). -/
def PlayerHand.double_checked (h : PlayerHand) (card : Card) : Option PlayerHand :=
  if h.size = 2 ∧ h.status = Status.InPlay then some (h.double card) else none

/-- Splitting a pair: the second card is popped, this hand's value is
recomputed from its first card, and a new hand with the popped card and the
same bet is returned (card.rs, `PlayerHand::split`).  Returns
(updated original hand, new hand).  Raw mutation; the source `debug_assert`s
`is_pair`. -/
def PlayerHand.split (h : PlayerHand) : PlayerHand × PlayerHand :=
  let split_card := h.cards.getLastD { rank := .Two, suit := .Clubs }
  let first := h.cards.headD { rank := .Two, suit := .Clubs }
  ({ h with cards := h.cards.dropLast, value := Value.fromCard first },
    PlayerHand.new split_card h.bet)

/-- `PlayerHand::split` with its `debug_assert!(is_pair)`. -/
def PlayerHand.split_checked (h : PlayerHand) : Option (PlayerHand × PlayerHand) :=
  if h.is_pair then some h.split else none

/-- The player surrenders (card.rs, `PlayerHand::surrender`), raw mutation. -/
def PlayerHand.surrender (h : PlayerHand) : PlayerHand :=
  { h with status := .Surrendered }

/-- `PlayerHand::surrender` with its `debug_assert!`: the source asserts only
that the hand has exactly two cards — unlike `stand`, `double` and
`add_assign` it does not assert the status is `InPlay`. -/
def PlayerHand.surrender_checked (h : PlayerHand) : Option PlayerHand :=
  if h.size = 2 then some h.surrender else none

/-- Winnings for a blackjack win at the configured ratio (card.rs,
`PlayerHand::payout_blackjack`): `bet + bet*3/2` or `bet + bet*6/5`,
integer division. -/
def PlayerHand.payout_blackjack (h : PlayerHand) (payout : BlackjackPayout) : Nat :=
  match payout with
  | .ThreeToTwo => h.bet + h.bet * 3 / 2
  | .SixToFive => h.bet + h.bet * 6 / 5

/-- Winnings of one finished player hand against the dealer's finished hand
(card.rs, `PlayerHand::calculate_winnings`). -/
def PlayerHand.calculate_winnings (h : PlayerHand) (dealer_hand : DealerHand)
    (blackjack_payout : BlackjackPayout) : Nat :=
  match h.status, dealer_hand.status with
  | .Surrendered, _ => h.bet / 2
  | .Blackjack, .Blackjack => h.bet
  | .Blackjack, _ => h.payout_blackjack blackjack_payout
  | _, .Blackjack => 0
  | .Bust, _ => 0
  | _, .Bust => h.bet * 2
  | _, _ =>
    if dealer_hand.value.total < h.value.total then h.bet * 2
    else if h.value.total = dealer_hand.value.total then h.bet
    else 0

/-- A pending player turn: the single initial hand plus the turn's one
insurance bet (card.rs, `hand::PendingTurn`). -/
structure PendingTurn where
  hand : PlayerHand
  insurance_bet : Nat
deriving DecidableEq, Repr

/-- `impl From<PlayerHand> for PendingTurn`. -/
def PendingTurn.ofHand (hand : PlayerHand) : PendingTurn :=
  { hand := hand, insurance_bet := 0 }

/-- The turn being played: the hands (grown by splits), the index of the
current hand, and the turn's insurance bet (card.rs, `hand::ActiveTurn`). -/
structure ActiveTurn where
  hands : List PlayerHand
  current_hand_index : Nat
  insurance_bet : Nat
deriving DecidableEq, Repr

/-- `impl From<PendingTurn> for ActiveTurn`. -/
def ActiveTurn.ofPending (turn : PendingTurn) : ActiveTurn :=
  { hands := [turn.hand], current_hand_index := 0, insurance_bet := turn.insurance_bet }

/-- The current hand (card.rs, `ActiveTurn::current_hand`).  The source
indexes `hands[current_hand_index]`; the engine keeps the index in bounds, so
the default is never consulted by reachable states. -/
def ActiveTurn.current_hand (t : ActiveTurn) : PlayerHand :=
  t.hands.getD t.current_hand_index (PlayerHand.new { rank := .Two, suit := .Clubs } 0)

/-- Replace the element at index `i` (used to model `&mut` access through
`current_hand_mut`). -/
def listModify (l : List α) (i : Nat) (f : α → α) : List α :=
  match l, i with
  | [], _ => []
  | a :: l', 0 => f a :: l'
  | a :: l', n + 1 => a :: listModify l' n f

/-- Apply a mutation to the current hand (card.rs, `ActiveTurn::current_hand_mut`). -/
def ActiveTurn.modifyCurrent (t : ActiveTurn) (f : PlayerHand → PlayerHand) : ActiveTurn :=
  { t with hands := listModify t.hands t.current_hand_index f }

/-- Number of hands in the turn (card.rs, `ActiveTurn::hands`). -/
def ActiveTurn.num_hands (t : ActiveTurn) : Nat :=
  t.hands.length

/-- Append a deferred (split) hand (card.rs, `ActiveTurn::defer`). -/
def ActiveTurn.defer (t : ActiveTurn) (hand : PlayerHand) : ActiveTurn :=
  { t with hands := t.hands ++ [hand] }

/-- A completed turn (card.rs, `hand::FinishedTurn`). -/
structure FinishedTurn where
  hands : List PlayerHand
  insurance_bet : Nat
deriving DecidableEq, Repr

/-- `impl From<PendingTurn> for FinishedTurn`. -/
def PendingTurn.toFinished (turn : PendingTurn) : FinishedTurn :=
  { hands := [turn.hand], insurance_bet := turn.insurance_bet }

/-- Advance to the next in-play hand, or finish the turn (card.rs,
`ActiveTurn::continue_playing`): the first hand at index ≥
`current_hand_index` still `InPlay` becomes current; with none left the turn
is deconstructed into a `FinishedTurn`. -/
def ActiveTurn.continue_playing (t : ActiveTurn) : Sum ActiveTurn FinishedTurn :=
  match (t.hands.drop t.current_hand_index).findIdx? (fun hand => hand.status = Status.InPlay) with
  | some position => .inl { t with current_hand_index := t.current_hand_index + position }
  | none => .inr { hands := t.hands, insurance_bet := t.insurance_bet }

/-- Total amount the player put in during the turn (card.rs,
`FinishedTurn::total_bet`). -/
def FinishedTurn.total_bet (t : FinishedTurn) : Nat :=
  (t.hands.map (fun hand => hand.bet)).sum + t.insurance_bet

/-- Winnings of a finished turn: insurance pays double iff the dealer has
blackjack, once for the turn, plus each hand's winnings (card.rs,
`FinishedTurn::calculate_winnings`). -/
def FinishedTurn.calculate_winnings (t : FinishedTurn) (dealer_hand : DealerHand)
    (blackjack_payout : BlackjackPayout) : Nat :=
  let insurance_winnings :=
    if dealer_hand.status = Status.Blackjack then t.insurance_bet * 2 else 0
  insurance_winnings
    + (t.hands.map (fun hand => hand.calculate_winnings dealer_hand blackjack_payout)).sum

/-- The per-hand payout exactly as §4.6 of the specification words it.  This
definition follows the specification text and is compared against
`PlayerHand.calculate_winnings`, which follows the source. -/
def specHandWinnings (h : PlayerHand) (d : DealerHand) (payout : BlackjackPayout) : Nat :=
  if h.status = Status.Surrendered then h.bet / 2
  else if h.status = Status.Blackjack ∧ d.status = Status.Blackjack then h.bet
  else if h.status = Status.Blackjack then
    (match payout with
     | .ThreeToTwo => h.bet + h.bet * 3 / 2
     | .SixToFive => h.bet + h.bet * 6 / 5)
  else if d.status = Status.Blackjack ∨ h.status = Status.Bust then 0
  else if d.status = Status.Bust then 2 * h.bet
  else if d.value.total < h.value.total then 2 * h.bet
  else if h.value.total = d.value.total then h.bet
  else 0

/-- The per-turn payout as the specification words it: per-hand winnings
summed, plus `2 * insurance_bet` iff the dealer has blackjack, once per turn. -/
def specTurnWinnings (t : FinishedTurn) (d : DealerHand) (payout : BlackjackPayout) : Nat :=
  (t.hands.map (fun hand => specHandWinnings hand d payout)).sum
    + (if d.status = Status.Blackjack then 2 * t.insurance_bet else 0)

/-- The shoe (card.rs, `shoe::Shoe`): deck count, cards drawn since the last
shuffle, penetration threshold, and the remaining count of each of the 52
distinct cards.  The source keeps the counts inside a `WeightedTreeIndex`
sampler; `counts` is that weight table.  `max_penetration` is an `f32` in the
source; it is modelled as an exact rational, which agrees with the source on
every comparison that is representable exactly. -/
structure Shoe where
  decks : Nat
  cards_drawn : Nat
  max_penetration : Rat
  counts : List Nat
deriving DecidableEq, Repr

/-- A full shoe (card.rs, `Shoe::new`): every count at `decks`, nothing drawn. -/
def Shoe.new (decks : Nat) (shuffle_threshold : Rat) : Shoe :=
  { decks := decks
    cards_drawn := 0
    max_penetration := shuffle_threshold
    counts := List.replicate 52 decks }

/-- Reset the shoe to full composition (card.rs, `Shoe::shuffle`). -/
def Shoe.shuffle (s : Shoe) : Shoe :=
  { s with cards_drawn := 0, counts := List.replicate 52 s.decks }

/-- Draw the card with the sampled `ordinal` (card.rs, `Shoe::draw_card`).
The sampler returns an ordinal with positive weight; `ordinal` is that
sample, made explicit.  The drawn-counter is incremented, the card's count
decremented, and — per the source's stated contract with the sampler
(`debug_assert_eq!(cards_drawn, decks*52)` at the failed update, and §4.2 of
the specification) — when the update empties the shoe entirely it is
reshuffled as a side effect, so the draw itself always succeeds. -/
def Shoe.draw_card (s : Shoe) (ordinal : Nat) : Card × Shoe :=
  let cards_drawn := s.cards_drawn + 1
  let new_weight := s.counts.getD ordinal 0 - 1
  let counts := s.counts.set ordinal new_weight
  if counts.sum = 0 then
    (Card.from_ordinal ordinal, { s with cards_drawn := 0, counts := List.replicate 52 s.decks })
  else
    (Card.from_ordinal ordinal, { s with cards_drawn := cards_drawn, counts := counts })

/-- Whether penetration has reached the shuffle threshold (card.rs,
`Shoe::needs_shuffle`): `cards_drawn / (decks*52) >= max_penetration`.  The
quotient comparison is written cross-multiplied over the exact rational
threshold — `max_penetration.num * (decks*52) ≤ cards_drawn * max_penetration.den`
— which is the same comparison whenever `decks ≥ 1` (the denominator of a
`Rat` is positive). -/
def Shoe.needs_shuffle (s : Shoe) : Bool :=
  s.max_penetration.num * ((s.decks * 52 : Nat) : Int)
    ≤ (s.cards_drawn : Int) * (s.max_penetration.den : Int)

/-- Table rules (rules.rs, `Rules`). -/
structure Rules where
  max_bet : Option Nat
  min_bet : Option Nat
  blackjack_payout : BlackjackPayout
  dealer_soft_17 : DealerSoft17Action
  insurance : Bool
  early_surrender : Bool
  late_surrender : Bool
  max_splits : Option Nat
  double_after_split : Bool
  split_aces : Bool
deriving DecidableEq, Repr

/-- `impl Default for Rules`. -/
def Rules.default : Rules :=
  { max_bet := none
    min_bet := some 100
    blackjack_payout := .ThreeToTwo
    dealer_soft_17 := .Stand
    insurance := false
    early_surrender := false
    late_surrender := true
    max_splits := some 5
    double_after_split := true
    split_aces := true }

/-- Game statistics.  The source's `Statistics::update` (statistics.rs) does
not type-check against its call site in `Table::end_round` (it is declared
for `Vec<PlayerHand>` and a `winnings` field `PlayerHand` does not have, but
is called with the round's `Vec<FinishedTurn>`): the crate is mid-refactor
there.  The embedding therefore records the exact sequence of `update`
invocations — the finished turns and final dealer hand of each completed
round — which determines any aggregation the refactor settles on. -/
abbrev Statistics := List (List FinishedTurn × DealerHand)

/-- One `Statistics::update` call (statistics.rs), recorded as data. -/
def Statistics.update (st : Statistics) (turns : List FinishedTurn)
    (dealer_hand : DealerHand) : Statistics :=
  st ++ [(turns, dealer_hand)]

/-- The table (game.rs, `Table`): shoe, rules, statistics and the
fast-forward flag. -/
structure Table where
  shoe : Shoe
  rules : Rules
  statistics : Statistics
  fast_forward : Bool
deriving DecidableEq, Repr

/-- Player hand actions (game.rs, `HandAction`). -/
inductive HandAction
  | Stand | Hit | Double | Split | Surrender
deriving DecidableEq, Repr

/-- Game inputs (game.rs, `Input`). -/
inductive Input
  | Bet (amount : Nat)
  | Choice (choice : Bool)
  | Action (action : HandAction)
deriving DecidableEq, Repr

/-- Bet validation errors (game.rs, `BetError`).  The enum declares exactly
these two variants. -/
inductive BetError
  | TooLow | TooHigh
deriving DecidableEq, Repr

/-- Double-down validation errors (game.rs, `DoubleError`). -/
inductive DoubleError
  | NotTwoCards | DoubleAfterSplitNotAllowed
deriving DecidableEq, Repr

/-- Split validation errors (game.rs, `SplitError`). -/
inductive SplitError
  | NotAPair | MaxSplitsReached | SplitAcesNotAllowed
deriving DecidableEq, Repr

/-- Surrender validation errors (game.rs, `SurrenderError`). -/
inductive SurrenderError
  | NotTwoCards | LateSurrenderNotAllowed
deriving DecidableEq, Repr

/-- The error taxonomy (game.rs, `Error`). -/
inductive Error
  | WrongInput
  | BetError (e : BetError)
  | DoubleError (e : DoubleError)
  | SplitError (e : SplitError)
  | SurrenderError (e : SurrenderError)
deriving DecidableEq, Repr

/-- The round state machine's states (state.rs, `GameState`). -/
inductive GameState
  | Betting
  | DealFirstPlayerCards (bets : List Nat) (player_turns : List PendingTurn)
  | DealFirstDealerCard (player_turns : List PendingTurn)
  | DealSecondPlayerCards (player_turns : List PendingTurn) (dealer_hand : DealerHand)
  | DealHoleCard (player_turns : List PendingTurn) (dealer_hand : DealerHand)
  | OfferEarlySurrender (player_turns : List PendingTurn) (dealer_hand : DealerHand)
  | OfferInsurance (player_turns : List PendingTurn) (dealer_hand : DealerHand)
  | CheckDealerHoleCard (player_turns : List PendingTurn) (dealer_hand : DealerHand)
  | PlayPlayerTurn (pending_turns : List PendingTurn) (current_turn : ActiveTurn)
      (finished_turns : List FinishedTurn) (dealer_hand : DealerHand)
  | PlayerStand (pending_turns : List PendingTurn) (current_turn : ActiveTurn)
      (finished_turns : List FinishedTurn) (dealer_hand : DealerHand)
  | PlayerHit (pending_turns : List PendingTurn) (current_turn : ActiveTurn)
      (finished_turns : List FinishedTurn) (dealer_hand : DealerHand)
  | PlayerDouble (pending_turns : List PendingTurn) (current_turn : ActiveTurn)
      (finished_turns : List FinishedTurn) (dealer_hand : DealerHand)
  | PlayerSplit (pending_turns : List PendingTurn) (current_turn : ActiveTurn)
      (finished_turns : List FinishedTurn) (dealer_hand : DealerHand)
  | DealFirstSplitCard (pending_turns : List PendingTurn) (current_turn : ActiveTurn)
      (new_hand : PlayerHand) (finished_turns : List FinishedTurn) (dealer_hand : DealerHand)
  | DealSecondSplitCard (pending_turns : List PendingTurn) (current_turn : ActiveTurn)
      (new_hand : PlayerHand) (finished_turns : List FinishedTurn) (dealer_hand : DealerHand)
  | PlayerSurrender (pending_turns : List PendingTurn) (current_turn : ActiveTurn)
      (finished_turns : List FinishedTurn) (dealer_hand : DealerHand)
  | RevealHoleCard (finished_turns : List FinishedTurn) (dealer_hand : DealerHand)
  | PlayDealerTurn (finished_turns : List FinishedTurn) (dealer_hand : DealerHand)
  | RoundOver (finished_turns : List FinishedTurn) (dealer_hand : DealerHand)
  | Payout (total_bets : List Nat) (winnings : List Nat)
  | Shuffle
deriving DecidableEq, Repr

/-- Result of one `Table::progress` call (game.rs, `ProgressResult`):
`ok next_state`, or `err` carrying the unchanged state and the error. -/
inductive ProgressResult
  | ok (next : GameState)
  | err (same : GameState) (e : Error)
deriving DecidableEq, Repr

/-- Which states accept a player input.  `Betting`, `OfferEarlySurrender`,
`OfferInsurance` and `PlayPlayerTurn` are the only arms of `Table::progress`
(game.rs) that inspect `input`; every other state progresses automatically. -/
def isAutoState : GameState → Bool
  | .Betting => false
  | .OfferEarlySurrender _ _ => false
  | .OfferInsurance _ _ => false
  | .PlayPlayerTurn _ _ _ _ => false
  | _ => true

/-- `Vec::pop`: remove and return the last element. -/
def listPop (l : List α) : Option (α × List α) :=
  match l.getLast? with
  | some a => some (a, l.dropLast)
  | none => none

/-- The `while let Some(turn) = pending_turns.pop_if(status != InPlay)` loop of
`Table::continue_player_phase_or_go_to_dealer` (game.rs lines 572-574), on the
reversed pending list: turns whose hand is no longer in play are moved to the
finished list until one still in play is on top. -/
def drainFinishedRev (revPending : List PendingTurn) (finished : List FinishedTurn) :
    List PendingTurn × List FinishedTurn :=
  match revPending with
  | [] => ([], finished)
  | turn :: rest =>
    if turn.hand.status ≠ Status.InPlay then
      drainFinishedRev rest (finished ++ [turn.toFinished])
    else (turn :: rest, finished)

/-- `Table::continue_player_phase_or_go_to_dealer` (game.rs).  Pure on the
hands: decides whether the current turn continues, the next pending turn
starts, or play moves to the dealer.  Return sites that the source guards
with `fast_forward` all carry automatic states; `Table.progress` dispatches
them onward (see `Table.progress`). -/
def continuePlayerPhase (pending_turns : List PendingTurn) (current_turn : ActiveTurn)
    (finished_turns : List FinishedTurn) (dealer_hand : DealerHand) : GameState :=
  match current_turn.continue_playing with
  | .inl current_turn =>
    .PlayPlayerTurn pending_turns current_turn finished_turns dealer_hand
  | .inr finished_turn =>
    let finished_turns := finished_turns ++ [finished_turn]
    let drained := drainFinishedRev pending_turns.reverse finished_turns
    let pending_turns := drained.1.reverse
    let finished_turns := drained.2
    match listPop pending_turns with
    | some (next, pending_turns) =>
      .PlayPlayerTurn pending_turns (ActiveTurn.ofPending next) finished_turns dealer_hand
    | none =>
      let dealer_hand :=
        if dealer_hand.status = Status.InPlay
            ∧ ¬ finished_turns.any (fun t => t.hands.any (fun h => h.status = Status.Stood)) then
          { dealer_hand with status := Status.Stood }
        else dealer_hand
      .RevealHoleCard finished_turns dealer_hand

/-- `Table::start_player_phase_or_end_round` (game.rs): pop the last pending
turn into play, or — with no players — flip the dealer to `Stood` and end the
round. -/
def startPlayerPhase (player_turns : List PendingTurn) (dealer_hand : DealerHand) : GameState :=
  match listPop player_turns with
  | some (first_turn, player_turns) =>
    continuePlayerPhase player_turns (ActiveTurn.ofPending first_turn) [] dealer_hand
  | none =>
    .RoundOver [] { dealer_hand with status := Status.Stood }

/-- `Table::play_dealer_turn_or_end_round` (game.rs), as the state it leads to. -/
def dealerTurnOrEnd (finished_turns : List FinishedTurn) (dealer_hand : DealerHand) : GameState :=
  if dealer_hand.status = Status.InPlay then .PlayDealerTurn finished_turns dealer_hand
  else .RoundOver finished_turns dealer_hand

/-- Output of one automatic transition: updated shoe and statistics, the
remaining sample tape, and the state reached. -/
structure StepOut where
  shoe : Shoe
  statistics : Statistics
  tape : List Nat
  state : GameState
deriving DecidableEq, Repr

/-- Draw a card using the next sampled ordinal on the tape. -/
def drawNext (shoe : Shoe) (tape : List Nat) : Card × Shoe × List Nat :=
  let r := shoe.draw_card (tape.headD 0)
  (r.1, r.2, tape.tail)

/-- One automatic transition of the round state machine: the bodies of the
`Table` helper methods (game.rs) for the states that take no input, with
every `if self.fast_forward { next_helper(...) } else { State { ... } }`
return site collapsed to the state it carries.  In the source each automatic
state's arm of `Table::progress` invokes exactly the helper that the
fast-forward branches call directly, with the same payload, so chaining
`stepAuto` through `Table.progress` (below) reproduces both modes.  The four
input states are never passed to this function (see `Table.progress`); they
map to themselves. -/
def stepAuto (shoe : Shoe) (rules : Rules) (stats : Statistics) (tape : List Nat) :
    GameState → StepOut
  | .DealFirstPlayerCards bets player_turns =>
    -- Table::deal_first_player_card
    (match listPop bets with
     | some (bet, bets) =>
       let d := drawNext shoe tape
       let player_turns := player_turns ++ [PendingTurn.ofHand (PlayerHand.new d.1 bet)]
       if bets.isEmpty then
         { shoe := d.2.1, statistics := stats, tape := d.2.2
           state := .DealFirstDealerCard player_turns }
       else
         { shoe := d.2.1, statistics := stats, tape := d.2.2
           state := .DealFirstPlayerCards bets player_turns }
     | none =>
       { shoe := shoe, statistics := stats, tape := tape
         state := .DealFirstDealerCard player_turns })
  | .DealFirstDealerCard player_turns =>
    -- Table::deal_first_dealer_card
    let d := drawNext shoe tape
    { shoe := d.2.1, statistics := stats, tape := d.2.2
      state := .DealSecondPlayerCards player_turns (DealerHand.new d.1 rules.dealer_soft_17) }
  | .DealSecondPlayerCards player_turns dealer_hand =>
    -- Table::deal_second_player_card: first pending hand with one card gets one
    (match player_turns.findIdx? (fun turn => turn.hand.size = 1) with
     | some k =>
       let d := drawNext shoe tape
       let player_turns := listModify player_turns k
         (fun turn => { turn with hand := turn.hand.add_assign d.1 })
       { shoe := d.2.1, statistics := stats, tape := d.2.2
         state := .DealSecondPlayerCards player_turns dealer_hand }
     | none =>
       { shoe := shoe, statistics := stats, tape := tape
         state := .DealHoleCard player_turns dealer_hand })
  | .DealHoleCard player_turns dealer_hand =>
    -- Table::deal_hole_card
    let d := drawNext shoe tape
    let dealer_hand := dealer_hand.add_assign d.1
    let state :=
      if dealer_hand.showing < 10
          ∨ player_turns.all (fun turn => turn.hand.status = Status.Blackjack) then
        startPlayerPhase player_turns dealer_hand
      else if rules.early_surrender then
        .OfferEarlySurrender player_turns dealer_hand
      else if rules.insurance ∧ dealer_hand.showing = 11 then
        .OfferInsurance player_turns dealer_hand
      else
        .CheckDealerHoleCard player_turns dealer_hand
    { shoe := d.2.1, statistics := stats, tape := d.2.2, state := state }
  | .CheckDealerHoleCard player_turns dealer_hand =>
    -- Table::check_dealer_hole_card
    let state :=
      if dealer_hand.status = Status.Blackjack then
        .RoundOver (player_turns.map PendingTurn.toFinished) dealer_hand
      else
        startPlayerPhase player_turns dealer_hand
    { shoe := shoe, statistics := stats, tape := tape, state := state }
  | .PlayerStand pending_turns current_turn finished_turns dealer_hand =>
    -- Table::stand
    let current_turn := current_turn.modifyCurrent PlayerHand.stand
    { shoe := shoe, statistics := stats, tape := tape
      state := continuePlayerPhase pending_turns current_turn finished_turns dealer_hand }
  | .PlayerHit pending_turns current_turn finished_turns dealer_hand =>
    -- Table::hit
    let d := drawNext shoe tape
    let current_turn := current_turn.modifyCurrent (fun h => h.add_assign d.1)
    { shoe := d.2.1, statistics := stats, tape := d.2.2
      state := continuePlayerPhase pending_turns current_turn finished_turns dealer_hand }
  | .PlayerDouble pending_turns current_turn finished_turns dealer_hand =>
    -- Table::double
    let d := drawNext shoe tape
    let current_turn := current_turn.modifyCurrent (fun h => h.double d.1)
    { shoe := d.2.1, statistics := stats, tape := d.2.2
      state := continuePlayerPhase pending_turns current_turn finished_turns dealer_hand }
  | .PlayerSplit pending_turns current_turn finished_turns dealer_hand =>
    -- Table::split
    let r := (current_turn.current_hand).split
    let current_turn := current_turn.modifyCurrent (fun _ => r.1)
    { shoe := shoe, statistics := stats, tape := tape
      state := .DealFirstSplitCard pending_turns current_turn r.2 finished_turns dealer_hand }
  | .DealFirstSplitCard pending_turns current_turn new_hand finished_turns dealer_hand =>
    -- Table::deal_first_split_card
    let d := drawNext shoe tape
    let current_turn := current_turn.modifyCurrent (fun h => h.add_assign d.1)
    { shoe := d.2.1, statistics := stats, tape := d.2.2
      state := .DealSecondSplitCard pending_turns current_turn new_hand finished_turns dealer_hand }
  | .DealSecondSplitCard pending_turns current_turn new_hand finished_turns dealer_hand =>
    -- Table::deal_second_split_card
    let d := drawNext shoe tape
    let new_hand := new_hand.add_assign d.1
    let current_turn := current_turn.defer new_hand
    { shoe := d.2.1, statistics := stats, tape := d.2.2
      state := continuePlayerPhase pending_turns current_turn finished_turns dealer_hand }
  | .PlayerSurrender pending_turns current_turn finished_turns dealer_hand =>
    -- Table::surrender
    let current_turn := current_turn.modifyCurrent PlayerHand.surrender
    { shoe := shoe, statistics := stats, tape := tape
      state := continuePlayerPhase pending_turns current_turn finished_turns dealer_hand }
  | .RevealHoleCard finished_turns dealer_hand =>
    -- Table::play_dealer_turn_or_end_round
    { shoe := shoe, statistics := stats, tape := tape
      state := dealerTurnOrEnd finished_turns dealer_hand }
  | .PlayDealerTurn finished_turns dealer_hand =>
    -- Table::play_dealer_turn
    let d := drawNext shoe tape
    let dealer_hand := dealer_hand.add_assign d.1
    { shoe := d.2.1, statistics := stats, tape := d.2.2
      state := dealerTurnOrEnd finished_turns dealer_hand }
  | .RoundOver finished_turns dealer_hand =>
    -- Table::end_round
    let total_bets := finished_turns.map FinishedTurn.total_bet
    let winnings := finished_turns.map
      (fun turn => turn.calculate_winnings dealer_hand rules.blackjack_payout)
    let stats := stats.update finished_turns dealer_hand
    { shoe := shoe, statistics := stats, tape := tape, state := .Payout total_bets winnings }
  | .Payout _ _ =>
    -- Table::pay_out_winnings (its winnings argument is ignored by the source)
    { shoe := shoe, statistics := stats, tape := tape
      state := if shoe.needs_shuffle then .Shuffle else .Betting }
  | .Shuffle =>
    -- Table::shuffle_dispenser
    { shoe := shoe.shuffle, statistics := stats, tape := tape, state := .Betting }
  | s => { shoe := shoe, statistics := stats, tape := tape, state := s }

/-- `Table::check_double_allowed` (game.rs): `none` is `Ok(())`. -/
def Table.check_double_allowed (t : Table) (player_turn : ActiveTurn) : Option DoubleError :=
  if player_turn.current_hand.size ≠ 2 then some .NotTwoCards
  else if 1 < player_turn.num_hands ∧ ¬t.rules.double_after_split then
    some .DoubleAfterSplitNotAllowed
  else none

/-- `Table::check_split_allowed` (game.rs): not a pair, then soft pair (aces)
against the split-aces rule, then the `max_splits` cap (`hands() > max`). -/
def Table.check_split_allowed (t : Table) (player_turn : ActiveTurn) : Option SplitError :=
  if ¬player_turn.current_hand.is_pair then some .NotAPair
  else if player_turn.current_hand.value.soft ∧ ¬t.rules.split_aces then
    some .SplitAcesNotAllowed
  else if (match t.rules.max_splits with
           | some max => decide (max < player_turn.num_hands)
           | none => false) then
    some .MaxSplitsReached
  else none

/-- `Table::check_surrender_allowed` (game.rs). -/
def Table.check_surrender_allowed (t : Table) (hand : PlayerHand) : Option SurrenderError :=
  if hand.size ≠ 2 then some .NotTwoCards
  else if ¬t.rules.late_surrender then some .LateSurrenderNotAllowed
  else none

/-- The per-turn surrender assignment of `Table::choose_early_surrender`
(game.rs): each turn paired with its choice surrenders if the choice is true.
The source `assert!`s the two lists have equal length; turns beyond the
choices are left unchanged here. -/
def applyChoices : List PendingTurn → List Bool → List PendingTurn
  | turn :: turns, choice :: choices =>
    (if choice then { turn with hand := turn.hand.surrender } else turn)
      :: applyChoices turns choices
  | turns, [] => turns
  | [], _ => []

/-- The per-turn insurance assignment of `Table::bet_insurance` (game.rs):
each insurance bet is capped at half the hand's bet. -/
def applyInsurance : List PendingTurn → List Nat → List PendingTurn
  | turn :: turns, bet :: bets =>
    { turn with
      insurance_bet := if turn.hand.bet / 2 < bet then turn.hand.bet / 2 else bet }
      :: applyInsurance turns bets
  | turns, [] => turns
  | [], _ => []

/-- `Table::progress` (game.rs), fuelled.  One call performs one transition
when `fast_forward` is off; with `fast_forward` on, the source's fast-forward
branches call the very helper that `progress` dispatches the carried state
to, so they are embedded as a recursive call through this dispatcher on the
state the branch carries (the fuel only bounds that recursion; `none` is fuel
exhaustion, which no source behaviour maps to).  The `Betting` arm's
fast-forward branch in the source refers to a `chips` field `Table` does not
declare and calls `deal_first_player_card` with one argument; it is embedded
as proceeding to `DealFirstPlayerCards` with the single bet and no checks,
which is what the declared state types admit.  Validation errors return the
state reconstructed unchanged together with the error, exactly as the
source's `Err((state, error))`. -/
def Table.progress : Nat → Table → List Nat → GameState → Option Input →
    Option (Table × List Nat × ProgressResult)
  | 0, _, _, _, _ => none
  | fuel + 1, t, tape, s, input =>
    if isAutoState s then
      let out := stepAuto t.shoe t.rules t.statistics tape s
      let t' : Table := { t with shoe := out.shoe, statistics := out.statistics }
      if t.fast_forward && isAutoState out.state then
        Table.progress fuel t' out.tape out.state none
      else some (t', out.tape, .ok out.state)
    else
      match s, input with
      | .Betting, some (.Bet bet) =>
        -- Table::bet
        if t.fast_forward then
          Table.progress fuel t tape (.DealFirstPlayerCards [bet] []) none
        else if (match t.rules.min_bet with
                 | some min => decide (bet < min)
                 | none => false) then
          some (t, tape, .err .Betting (.BetError .TooLow))
        else if (match t.rules.max_bet with
                 | some max => decide (max < bet)
                 | none => false) then
          some (t, tape, .err .Betting (.BetError .TooHigh))
        else
          some (t, tape, .ok (.DealFirstPlayerCards [bet] []))
      | .Betting, _ => some (t, tape, .err .Betting .WrongInput)
      | .OfferEarlySurrender player_turns dealer_hand, some (.Choice early_surrender) =>
        -- Table::choose_early_surrender with the single choice
        let choices := [early_surrender]
        let player_turns := applyChoices player_turns choices
        let s' :=
          if choices.all (fun choice => choice) then
            GameState.RoundOver (player_turns.map PendingTurn.toFinished) dealer_hand
          else if t.rules.insurance ∧ dealer_hand.showing = 11 then
            GameState.OfferInsurance player_turns dealer_hand
          else
            GameState.CheckDealerHoleCard player_turns dealer_hand
        if t.fast_forward && isAutoState s' then Table.progress fuel t tape s' none
        else some (t, tape, .ok s')
      | .OfferEarlySurrender player_turns dealer_hand, _ =>
        some (t, tape, .err (.OfferEarlySurrender player_turns dealer_hand) .WrongInput)
      | .OfferInsurance player_turns dealer_hand, some (.Bet insurance_bet) =>
        -- Table::bet_insurance with the single insurance bet
        let player_turns := applyInsurance player_turns [insurance_bet]
        let s' := GameState.CheckDealerHoleCard player_turns dealer_hand
        if t.fast_forward && isAutoState s' then Table.progress fuel t tape s' none
        else some (t, tape, .ok s')
      | .OfferInsurance player_turns dealer_hand, _ =>
        some (t, tape, .err (.OfferInsurance player_turns dealer_hand) .WrongInput)
      | .PlayPlayerTurn pending_turns current_turn finished_turns dealer_hand,
          some (.Action action) =>
        -- Table::play_player_turn; fast-forward skips the allowed-checks
        (match action with
         | .Hit =>
           let s' := GameState.PlayerHit pending_turns current_turn finished_turns dealer_hand
           if t.fast_forward then Table.progress fuel t tape s' none
           else some (t, tape, .ok s')
         | .Stand =>
           let s' := GameState.PlayerStand pending_turns current_turn finished_turns dealer_hand
           if t.fast_forward then Table.progress fuel t tape s' none
           else some (t, tape, .ok s')
         | .Double =>
           let s' := GameState.PlayerDouble pending_turns current_turn finished_turns dealer_hand
           if t.fast_forward then Table.progress fuel t tape s' none
           else match t.check_double_allowed current_turn with
             | some e =>
               some (t, tape,
                 .err (.PlayPlayerTurn pending_turns current_turn finished_turns dealer_hand)
                   (.DoubleError e))
             | none => some (t, tape, .ok s')
         | .Split =>
           let s' := GameState.PlayerSplit pending_turns current_turn finished_turns dealer_hand
           if t.fast_forward then Table.progress fuel t tape s' none
           else match t.check_split_allowed current_turn with
             | some e =>
               some (t, tape,
                 .err (.PlayPlayerTurn pending_turns current_turn finished_turns dealer_hand)
                   (.SplitError e))
             | none => some (t, tape, .ok s')
         | .Surrender =>
           let s' := GameState.PlayerSurrender pending_turns current_turn finished_turns dealer_hand
           if t.fast_forward then Table.progress fuel t tape s' none
           else match t.check_surrender_allowed current_turn.current_hand with
             | some e =>
               some (t, tape,
                 .err (.PlayPlayerTurn pending_turns current_turn finished_turns dealer_hand)
                   (.SurrenderError e))
             | none => some (t, tape, .ok s'))
      | .PlayPlayerTurn pending_turns current_turn finished_turns dealer_hand, _ =>
        some (t, tape,
          .err (.PlayPlayerTurn pending_turns current_turn finished_turns dealer_hand) .WrongInput)
      | _, _ => none

/-- Step-wise execution of the automatic transitions: starting from a state,
keep calling `Table.progress` with no input (one transition per call, as a
non-fast-forward driver would) until an input-accepting state is reached.
Fuel bounds the number of steps. -/
def stepRun : Nat → Table → List Nat → GameState → Option (Table × List Nat × ProgressResult)
  | 0, t, tape, s => if isAutoState s then none else some (t, tape, .ok s)
  | fuel + 1, t, tape, s =>
    if isAutoState s then
      match Table.progress 1 t tape s none with
      | some (t', tape', .ok s') => stepRun fuel t' tape' s'
      | _ => none
    else some (t, tape, .ok s)

/-- A hand value as reached by the hand types: `Value::from` of the first
card, then `add_assign` of each further card's value (card.rs). -/
def handValue (first : Card) (rest : List Card) : Value :=
  rest.foldl (fun v c => v.add_assign (Value.fromCard c)) (Value.fromCard first)

/-- Shoe states reachable from `Shoe::new D _` by drawing: `D` decks, 52
weight entries, the weights and the drawn-counter always partition the `D*52`
cards of a composition cycle, and the shoe is never left empty (so the
sampler always has a card to return). -/
def ShoeReach (D : Nat) (s : Shoe) : Prop :=
  s.decks = D ∧ s.counts.length = 52 ∧ s.counts.sum + s.cards_drawn = D * 52
    ∧ 0 < s.counts.sum

/-- A two-card pair of tens that already stood: a terminal hand. -/
def stoodTenPair : PlayerHand :=
  { bet := 100
    value := { soft := false, total := 20 }
    status := .Stood
    cards := [{ rank := .Ten, suit := .Clubs }, { rank := .Ten, suit := .Diamonds }] }

/-- Whether the input fails to match the one kind the (input-accepting) state
requires: `Betting` and `OfferInsurance` take `Bet`, `OfferEarlySurrender`
takes `Choice`, `PlayPlayerTurn` takes `Action`; `none` and every other
variant mismatch.  Automatic states are mapped to `false`. -/
def inputMismatch : GameState → Option Input → Bool
  | .Betting, some (.Bet _) => false
  | .Betting, _ => true
  | .OfferEarlySurrender _ _, some (.Choice _) => false
  | .OfferEarlySurrender _ _, _ => true
  | .OfferInsurance _ _, some (.Bet _) => false
  | .OfferInsurance _ _, _ => true
  | .PlayPlayerTurn _ _ _ _, some (.Action _) => false
  | .PlayPlayerTurn _ _ _ _, _ => true
  | _, _ => false

/-- A concrete table under the default rules, used by concrete runs. -/
def cTable : Table :=
  { shoe := Shoe.new 4 1, rules := Rules.default, statistics := [], fast_forward := false }

/-- Well-formedness of a player hand: its cached `value` is the fold of its
cards' values, as every hand built through the hand API maintains. -/
def PlayerHand.wf (h : PlayerHand) : Prop :=
  h.cards ≠ []
    ∧ h.value = handValue (h.cards.headD { rank := .Two, suit := .Clubs }) h.cards.tail

instance (h : PlayerHand) : Decidable h.wf :=
  inferInstanceAs (Decidable (_ ∧ _))

/-- A pair of non-ace tens, in play, bet 100. -/
def pairTensHand : PlayerHand :=
  { bet := 100
    value := { soft := false, total := 20 }
    status := .InPlay
    cards := [{ rank := .Ten, suit := .Clubs }, { rank := .Ten, suit := .Diamonds }] }

/-- A concrete dealer hand (hard 17, in play) for player-turn runs. -/
def cSplitDealer : DealerHand :=
  { value := { soft := false, total := 17 }
    status := .InPlay
    cards := [{ rank := .Ten, suit := .Hearts }, { rank := .Seven, suit := .Hearts }]
    soft_17_action := .Stand }

/-- A table with `max_splits = Some 2` and no betting limits. -/
def splitTable : Table :=
  { shoe := Shoe.new 4 1
    rules := { Rules.default with max_splits := some 2, min_bet := none }
    statistics := []
    fast_forward := false }

/-- The player's turn holding only the pair of tens. -/
def splitStart : GameState :=
  .PlayPlayerTurn [] (ActiveTurn.ofPending (PendingTurn.ofHand pairTensHand)) [] cSplitDealer

/-- Feed one input into the state carried by an `Ok` progress result. -/
def stepWith (r : Option (Table × List Nat × ProgressResult)) (i : Option Input) :
    Option (Table × List Nat × ProgressResult) :=
  match r with
  | some (t, tape, .ok s) => Table.progress 1 t tape s i
  | _ => none

/-- Step `n` automatic transitions, one `Table::progress` call each. -/
def runAutoSteps : Nat → Option (Table × List Nat × ProgressResult) →
    Option (Table × List Nat × ProgressResult)
  | 0, r => r
  | n + 1, r => runAutoSteps n (stepWith r none)

/-- First split attempt on the pair of tens (the tape deals fresh tens to
both split hands, keeping pairs available). -/
def splitAttempt1 : Option (Table × List Nat × ProgressResult) :=
  Table.progress 1 splitTable [32, 33, 32, 33] splitStart (some (.Action .Split))

/-- Second split attempt, after the three automatic split-dealing steps. -/
def splitAttempt2 : Option (Table × List Nat × ProgressResult) :=
  stepWith (runAutoSteps 3 splitAttempt1) (some (.Action .Split))

/-- The `PlayPlayerTurn` reached after the second split's automatic steps —
the input point of the third attempt. -/
def splitAttempt3From : Option (Table × List Nat × ProgressResult) :=
  runAutoSteps 3 splitAttempt2

/-- Whether a progress result accepted the split (moved to `PlayerSplit`). -/
def isOkPlayerSplit : Option (Table × List Nat × ProgressResult) → Bool
  | some (_, _, .ok (.PlayerSplit _ _ _ _)) => true
  | _ => false

/-- The third attempt is rejected `MaxSplitsReached` with table, tape and
state returned exactly as they were. -/
def thirdSplitRejected : Bool :=
  match splitAttempt3From with
  | some (t, tape, .ok s) =>
    decide (Table.progress 1 t tape s (some (.Action .Split))
      = some (t, tape, .err s (.SplitError .MaxSplitsReached)))
  | _ => false

/-- The table after one automatic transition: shoe and statistics replaced,
rules and mode untouched. -/
def applyStep (t : Table) (out : StepOut) : Table :=
  { t with shoe := out.shoe, statistics := out.statistics }

/-- A two-card hard 17 (ten-seven), in play, bet 100. -/
def mix17Hand : PlayerHand :=
  { bet := 100
    value := { soft := false, total := 17 }
    status := .InPlay
    cards := [{ rank := .Ten, suit := .Clubs }, { rank := .Seven, suit := .Clubs }] }

/-- A table whose rules forbid late surrender. -/
def cSurTable : Table :=
  { shoe := Shoe.new 4 1
    rules := { Rules.default with late_surrender := false, min_bet := none }
    statistics := []
    fast_forward := false }

/-- The player turn holding the ten-seven, surrender about to be attempted. -/
def cSurState : GameState :=
  .PlayPlayerTurn [] (ActiveTurn.ofPending (PendingTurn.ofHand mix17Hand)) [] cSplitDealer

/-- A value produced by `Value.add_assign` is never soft with a total above
21: a surviving soft ace certifies the sum stayed within 21. -/
theorem value_add_soft_le (a b : Value) (h : (a.add_assign b).soft = true) :
    (a.add_assign b).total ≤ 21 := by
  obtain ⟨sa, ta⟩ := a
  obtain ⟨sb, tb⟩ := b
  simp only [Value.add_assign] at h ⊢
  cases sa <;> cases sb <;> simp only [Bool.true_and, Bool.false_and, Bool.and_self] at h ⊢ <;>
    split_ifs at h ⊢ <;> simp_all

/-- Soft single-card values are aces and total 11; hard ones total 2-10. -/
theorem fromCard_bounds (c : Card) :
    ((Value.fromCard c).soft = true → (Value.fromCard c).total = 11)
      ∧ ((Value.fromCard c).soft = false → 2 ≤ (Value.fromCard c).total
            ∧ (Value.fromCard c).total ≤ 10) := by
  obtain ⟨r, s⟩ := c
  cases r <;> simp [Value.fromCard, Rank.worth]

/-- Adding a card preserves the soft-value bounds invariant. -/
theorem value_add_card_invariant (v : Value) (c : Card)
    (hv : v.soft = true → 11 ≤ v.total ∧ v.total ≤ 21) :
    (v.add_assign (Value.fromCard c)).soft = true →
      11 ≤ (v.add_assign (Value.fromCard c)).total
        ∧ (v.add_assign (Value.fromCard c)).total ≤ 21 := by
  intro hsoft
  refine ⟨?_, value_add_soft_le _ _ hsoft⟩
  obtain ⟨hA, hB⟩ := fromCard_bounds c
  obtain ⟨sv, tv⟩ := v
  rcases hfc : Value.fromCard c with ⟨sc, tc⟩
  simp only [Value.add_assign] at hsoft ⊢
  cases sv <;> cases sc <;> simp_all <;> split_ifs at hsoft ⊢ <;> simp_all <;> omega

/-- C3: for every pair of values, `Value::add_assign` computes exactly the
specification's algorithm — deflate the incoming soft ace if the sum would
exceed 21, then the accumulator's, then sum, soft iff either side remained
soft — and in particular the result never has `total > 21` while a soft ace
among the two operands remains undeflated (a soft result always totals ≤ 21,
so any bust is hard). -/
theorem value_add_assign_matches_spec (acc inc : Value) :
    acc.add_assign inc = specValueAdd acc inc
      ∧ (21 < (acc.add_assign inc).total → (acc.add_assign inc).soft = false) := by
  constructor
  · obtain ⟨sa, ta⟩ := acc
    obtain ⟨sb, tb⟩ := inc
    simp only [Value.add_assign, specValueAdd]
    cases sa <;> cases sb <;> split_ifs <;> simp_all
  · intro h
    cases hsoft : (acc.add_assign inc).soft with
    | false => rfl
    | true => exact absurd (value_add_soft_le acc inc hsoft) (by omega)

/-- Witness for `value_add_assign_matches_spec` at soft 20 + ace and at the
hard bust 15 + 10. -/
theorem value_add_assign_matches_spec_witness :
    Value.add_assign { soft := true, total := 20 } { soft := true, total := 11 }
        = specValueAdd { soft := true, total := 20 } { soft := true, total := 11 }
      ∧ 21 < (Value.add_assign { soft := false, total := 15 } { soft := false, total := 10 }).total
      ∧ (Value.add_assign { soft := false, total := 15 } { soft := false, total := 10 }).soft
          = false :=
  ⟨(value_add_assign_matches_spec _ _).1, by decide,
    (value_add_assign_matches_spec { soft := false, total := 15 }
      { soft := false, total := 10 }).2 (by decide)⟩

/-- C9: every value reachable from a card by adding card values satisfies
`soft = true → 11 ≤ total ≤ 21`: a soft value is never a bust, so busting can
occur only on a hard value. -/
theorem reachable_soft_value_bounds (first : Card) (rest : List Card)
    (h : (handValue first rest).soft = true) :
    11 ≤ (handValue first rest).total ∧ (handValue first rest).total ≤ 21 := by
  have H : ∀ (l : List Card) (v : Value), (v.soft = true → 11 ≤ v.total ∧ v.total ≤ 21) →
      ((l.foldl (fun v c => v.add_assign (Value.fromCard c)) v).soft = true →
        11 ≤ (l.foldl (fun v c => v.add_assign (Value.fromCard c)) v).total
          ∧ (l.foldl (fun v c => v.add_assign (Value.fromCard c)) v).total ≤ 21) := by
    intro l
    induction l with
    | nil => intro v hv; simpa using hv
    | cons c l ih =>
      intro v hv
      simp only [List.foldl_cons]
      exact ih _ (value_add_card_invariant v c hv)
  have hbase : (Value.fromCard first).soft = true →
      11 ≤ (Value.fromCard first).total ∧ (Value.fromCard first).total ≤ 21 := by
    intro hs
    have := (fromCard_bounds first).1 hs
    omega
  exact H rest (Value.fromCard first) hbase h

/-- Witness for `reachable_soft_value_bounds`: an ace then a nine is Soft 20. -/
theorem reachable_soft_value_bounds_witness :
    (handValue { rank := .Ace, suit := .Spades } [{ rank := .Nine, suit := .Clubs }]).soft = true
      ∧ 11 ≤ (handValue { rank := .Ace, suit := .Spades }
          [{ rank := .Nine, suit := .Clubs }]).total
      ∧ (handValue { rank := .Ace, suit := .Spades }
          [{ rank := .Nine, suit := .Clubs }]).total ≤ 21 :=
  ⟨by decide, reachable_soft_value_bounds _ _ (by decide)⟩

/-- `PlayerHand::calculate_winnings` agrees with the specification's payout
table on every pair of statuses (the match arms and the specification's
guarded cases carve out the same partition). -/
theorem calculate_winnings_eq_spec (h : PlayerHand) (d : DealerHand)
    (payout : BlackjackPayout) :
    h.calculate_winnings d payout = specHandWinnings h d payout := by
  cases hs : h.status <;> cases hd : d.status <;>
    simp [PlayerHand.calculate_winnings, specHandWinnings, PlayerHand.payout_blackjack, hs, hd] <;>
    (try cases payout) <;> first
      | rfl
      | omega
      | (split_ifs <;> omega)

/-- C2: for finished hands, `PlayerHand::calculate_winnings` returns exactly
the specification's amounts — surrender `bet/2`; both blackjack `bet`; player
blackjack alone `bet + bet*3/2` or `bet + bet*6/5` (integer division); dealer
blackjack alone, or player bust, `0`; dealer bust alone `2*bet`; otherwise
`2*bet`/`bet`/`0` by comparing totals — and `FinishedTurn::calculate_winnings`
adds `2*insurance_bet` exactly once per turn iff the dealer's status is
`Blackjack`.  The terminal-status hypotheses mirror the claim's quantification
over finished hands; `calculate_winnings_eq_spec` shows the per-hand equality
needs no such restriction. -/
theorem calculate_winnings_spec (h : PlayerHand) (d : DealerHand) (payout : BlackjackPayout)
    (hterm : h.status.isTerminal = true) (dterm : d.status.isTerminal = true) :
    h.calculate_winnings d payout = specHandWinnings h d payout
      ∧ ∀ (t : FinishedTurn), t.calculate_winnings d payout = specTurnWinnings t d payout := by
  refine ⟨calculate_winnings_eq_spec h d payout, fun t => ?_⟩
  simp only [FinishedTurn.calculate_winnings, specTurnWinnings]
  have hmap : t.hands.map (fun hand => hand.calculate_winnings d payout)
      = t.hands.map (fun hand => specHandWinnings hand d payout) :=
    List.map_congr_left (fun hand _ => calculate_winnings_eq_spec hand d payout)
  rw [hmap]
  split_ifs <;> omega

/-- Witness for `calculate_winnings_spec`: a surrendered hand against a stood
dealer pays half the bet, and a one-hand turn with insurance against a
dealer blackjack collects `2*insurance` plus zero. -/
theorem calculate_winnings_spec_witness :
    (PlayerHand.mk 101 { soft := false, total := 16 } .Surrendered
        [{ rank := .Ten, suit := .Clubs }, { rank := .Six, suit := .Clubs }]).calculate_winnings
        (DealerHand.mk { soft := false, total := 20 } .Stood
          [{ rank := .Ten, suit := .Hearts }, { rank := .Ten, suit := .Spades }] .Stand) .ThreeToTwo
      = specHandWinnings
        (PlayerHand.mk 101 { soft := false, total := 16 } .Surrendered
          [{ rank := .Ten, suit := .Clubs }, { rank := .Six, suit := .Clubs }])
        (DealerHand.mk { soft := false, total := 20 } .Stood
          [{ rank := .Ten, suit := .Hearts }, { rank := .Ten, suit := .Spades }] .Stand)
        .ThreeToTwo :=
  (calculate_winnings_spec _ _ _ (by decide) (by decide)).1

/-- Setting one entry of a list of naturals changes the sum by swapping that
entry for the new value. -/
theorem listSumSet (l : List Nat) (k v : Nat) (hk : k < l.length) :
    (l.set k v).sum + l.getD k 0 = l.sum + v := by
  induction l generalizing k with
  | nil => simp at hk
  | cons a l ih =>
    cases k with
    | zero => simp [Nat.add_comm, Nat.add_left_comm]
    | succ k =>
      simp only [List.set, List.sum_cons, List.getD, List.get?_cons_succ]
      have := ih k (by simpa using hk)
      simp only [List.getD] at this
      omega

/-- A positive sum exhibits a positive entry. -/
theorem exists_pos_of_sum_pos (l : List Nat) (h : 0 < l.sum) :
    ∃ j, j < l.length ∧ 0 < l.getD j 0 := by
  induction l with
  | nil => simp at h
  | cons a l ih =>
    cases Nat.eq_zero_or_pos a with
    | inr ha => exact ⟨0, by simp, by simpa using ha⟩
    | inl ha =>
      subst ha
      obtain ⟨j, hj, hpos⟩ := ih (by simpa using h)
      exact ⟨j + 1, by simpa using hj, by simpa using hpos⟩

/-- Unfolding of `Shoe.draw_card`: the drawn card, and the shoe either reset
to full (when the decrement emptied it) or with the sampled count
decremented and the drawn-counter incremented. -/
theorem Shoe.draw_card_def (s : Shoe) (o : Nat) :
    s.draw_card o =
      (Card.from_ordinal o,
        if (s.counts.set o (s.counts.getD o 0 - 1)).sum = 0 then
          { s with cards_drawn := 0, counts := List.replicate 52 s.decks }
        else
          { s with
            cards_drawn := s.cards_drawn + 1
            counts := s.counts.set o (s.counts.getD o 0 - 1) }) := by
  simp only [Shoe.draw_card]
  split_ifs <;> rfl

/-- C4: for a shoe of `D ≥ 1` decks, a fresh shoe satisfies the reachability
invariant; every draw of a validly sampled ordinal (positive remaining count)
preserves it — in particular a further valid sample always exists, so every
draw call succeeds; the draw that removes the last remaining card, i.e. the
`D*52`-th since the last full composition, resets every count to `D` and the
drawn-counter to 0 as a side effect; and an earlier draw never reshuffles,
it just decrements the sampled count and increments the counter. -/
theorem shoe_draw_card_spec (D : Nat) (pen : Rat) (s : Shoe) (o : Nat)
    (hD : 1 ≤ D) (hs : ShoeReach D s) (ho : o < 52) (hw : 0 < s.counts.getD o 0) :
    ShoeReach D (Shoe.new D pen)
      ∧ ShoeReach D (s.draw_card o).2
      ∧ (∃ j, j < 52 ∧ 0 < (s.draw_card o).2.counts.getD j 0)
      ∧ (s.cards_drawn + 1 = D * 52 →
          (s.draw_card o).2.cards_drawn = 0
            ∧ (s.draw_card o).2.counts = List.replicate 52 D)
      ∧ (s.cards_drawn + 1 < D * 52 →
          (s.draw_card o).2.cards_drawn = s.cards_drawn + 1
            ∧ (s.draw_card o).2.counts = s.counts.set o (s.counts.getD o 0 - 1)) := by
  obtain ⟨hdecks, hlen, hpart, hpos⟩ := hs
  have hrepl : (List.replicate 52 D).sum = 52 * D := by
    rw [List.sum_replicate, smul_eq_mul]
  have hko : o < s.counts.length := by omega
  have hset := listSumSet s.counts o (s.counts.getD o 0 - 1) hko
  have hsetsum : (s.counts.set o (s.counts.getD o 0 - 1)).sum = s.counts.sum - 1 := by omega
  have hfresh : ShoeReach D (Shoe.new D pen) := by
    refine ⟨rfl, by simp [Shoe.new], ?_, ?_⟩ <;> simp [Shoe.new, hrepl] <;> omega
  refine ⟨hfresh, ?_⟩
  by_cases hone : s.counts.sum = 1
  · -- the sampled card was the last one: automatic reshuffle
    have hzero : (s.counts.set o (s.counts.getD o 0 - 1)).sum = 0 := by omega
    have hc : (s.draw_card o).2.counts = List.replicate 52 s.decks := by
      rw [Shoe.draw_card_def, if_pos hzero]
    have hn : (s.draw_card o).2.cards_drawn = 0 := by
      rw [Shoe.draw_card_def, if_pos hzero]
    have hk : (s.draw_card o).2.decks = s.decks := by
      rw [Shoe.draw_card_def, if_pos hzero]
    refine ⟨⟨by rw [hk, hdecks], by rw [hc]; simp, by rw [hc, hn, hdecks, hrepl]; omega,
        by rw [hc, hdecks, hrepl]; omega⟩,
      ⟨0, by omega, ?_⟩,
      fun _ => ⟨hn, by rw [hc, hdecks]⟩, fun hlt => absurd hlt (by omega)⟩
    rw [hc]
    have hget : (List.replicate 52 s.decks).getD 0 0 = s.decks := by simp
    rw [hget, hdecks]
    omega
  · -- cards remain: plain decrement, no reshuffle
    have hzero : ¬ (s.counts.set o (s.counts.getD o 0 - 1)).sum = 0 := by omega
    have hc : (s.draw_card o).2.counts = s.counts.set o (s.counts.getD o 0 - 1) := by
      rw [Shoe.draw_card_def, if_neg hzero]
    have hn : (s.draw_card o).2.cards_drawn = s.cards_drawn + 1 := by
      rw [Shoe.draw_card_def, if_neg hzero]
    have hk : (s.draw_card o).2.decks = s.decks := by
      rw [Shoe.draw_card_def, if_neg hzero]
    refine ⟨⟨by rw [hk, hdecks], by rw [hc]; simpa using hlen, by rw [hc, hn]; omega,
        by rw [hc]; omega⟩,
      ?_, fun heq => absurd heq (by omega), fun _ => ⟨hn, hc⟩⟩
    obtain ⟨j, hj, hpos'⟩ := exists_pos_of_sum_pos (s.counts.set o (s.counts.getD o 0 - 1))
      (by omega)
    rw [hc]
    exact ⟨j, by simpa [hlen] using hj, hpos'⟩

/-- Witness for `shoe_draw_card_spec`: drawing ordinal 0 from a fresh
one-deck shoe. -/
theorem shoe_draw_card_spec_witness :
    ShoeReach 1 ((Shoe.new 1 1).draw_card 0).2
      ∧ (((Shoe.new 1 1).cards_drawn + 1 < 1 * 52) →
          ((Shoe.new 1 1).draw_card 0).2.cards_drawn = (Shoe.new 1 1).cards_drawn + 1
            ∧ ((Shoe.new 1 1).draw_card 0).2.counts
                = (Shoe.new 1 1).counts.set 0 ((Shoe.new 1 1).counts.getD 0 0 - 1)) :=
  ⟨(shoe_draw_card_spec 1 1 (Shoe.new 1 1) 0 (by decide)
      ⟨rfl, by decide, by decide, by decide⟩ (by decide) (by decide)).2.1,
    fun _ => (shoe_draw_card_spec 1 1 (Shoe.new 1 1) 0 (by decide)
      ⟨rfl, by decide, by decide, by decide⟩ (by decide) (by decide)).2.2.2.2 (by decide)⟩

/-- C7 (failing input): on a terminal hand, `add_assign`, `stand` and
`double` trip their `debug_assert_eq!(status, InPlay)` guards rather than
mutate, and `split` never writes the status field — but `surrender` asserts
only the card count, so calling it on a two-card *terminal* hand silently
overwrites the terminal status with `Surrendered`, contradicting the claim
that a terminal status is only ever read. -/
theorem surrender_overwrites_terminal_status :
    stoodTenPair.surrender_checked = some { stoodTenPair with status := .Surrendered }
      ∧ (stoodTenPair.surrender_checked.map PlayerHand.status) = some Status.Surrendered
      ∧ stoodTenPair.stand_checked = none
      ∧ stoodTenPair.add_assign_checked { rank := .Five, suit := .Clubs } = none
      ∧ stoodTenPair.double_checked { rank := .Five, suit := .Clubs } = none
      ∧ (stoodTenPair.split_checked.map (fun r => r.1.status)) = some Status.Stood := by
  decide

/-- The first split hand and its successor: splitting any hand leaves the new
hand with exactly one card (card.rs, `PlayerHand::split` builds it with
`PlayerHand::new`). -/
theorem split_new_hand_one_card (h : PlayerHand) : (h.split.2).cards.length = 1 := by
  simp [PlayerHand.split, PlayerHand.new]

/-- C10: `PlayerHand::add_assign` derives the status from the new total and
the new card count alone — never from how the hand originated — so the
second card dealt to a freshly split hand makes a two-card hand, and if it
brings the total to 21 the status is `Blackjack`; a blackjack hand against a
non-blackjack dealer is then paid `bet + bet*3/2` (or `bet + bet*6/5`,
integer division) by `calculate_winnings`. -/
theorem split_hand_blackjack_spec :
    (∀ (h : PlayerHand) (c : Card),
        (h.add_assign c).status
          = statusFromTotalSize (h.add_assign c).value.total (h.add_assign c).cards.length)
      ∧ (∀ (h : PlayerHand) (c : Card),
          ((h.split.2).add_assign c).value.total = 21 →
            ((h.split.2).add_assign c).status = .Blackjack)
      ∧ (∀ (h : PlayerHand) (d : DealerHand) (payout : BlackjackPayout),
          h.status = .Blackjack → d.status ≠ .Blackjack →
            h.calculate_winnings d payout
              = (match payout with
                 | .ThreeToTwo => h.bet + h.bet * 3 / 2
                 | .SixToFive => h.bet + h.bet * 6 / 5)) := by
  refine ⟨fun h c => rfl, fun h c h21 => ?_, fun h d payout hbj hdbj => ?_⟩
  · have hlen : ((h.split.2).add_assign c).cards.length = 2 := by
      simp [PlayerHand.add_assign, split_new_hand_one_card h]
    have : ((h.split.2).add_assign c).status
        = statusFromTotalSize ((h.split.2).add_assign c).value.total
            ((h.split.2).add_assign c).cards.length := rfl
    rw [this, h21, hlen]
    decide
  · cases hd : d.status <;>
      simp_all [PlayerHand.calculate_winnings, PlayerHand.payout_blackjack]

/-- Witness for `split_hand_blackjack_spec`: splitting a pair of tens and
dealing an ace to the new hand makes a two-card 21 classified `Blackjack`,
paid 250 on a 100 bet at 3:2 against a stood dealer 20. -/
theorem split_hand_blackjack_spec_witness :
    (((stoodTenPair.split.2).add_assign { rank := .Ace, suit := .Spades }).value.total = 21
        ∧ ((stoodTenPair.split.2).add_assign { rank := .Ace, suit := .Spades }).status
            = .Blackjack)
      ∧ ((PlayerHand.mk 100 { soft := false, total := 21 } .Blackjack
            [{ rank := .Ten, suit := .Clubs }, { rank := .Ace, suit := .Spades }]).calculate_winnings
          (DealerHand.mk { soft := false, total := 20 } .Stood
            [{ rank := .Ten, suit := .Hearts }, { rank := .Ten, suit := .Spades }] .Stand)
          .ThreeToTwo = 250) :=
  ⟨⟨by decide, split_hand_blackjack_spec.2.1 stoodTenPair { rank := .Ace, suit := .Spades }
      (by decide)⟩,
    by
      have := split_hand_blackjack_spec.2.2
        (PlayerHand.mk 100 { soft := false, total := 21 } .Blackjack
          [{ rank := .Ten, suit := .Clubs }, { rank := .Ace, suit := .Spades }])
        (DealerHand.mk { soft := false, total := 20 } .Stood
          [{ rank := .Ten, suit := .Hearts }, { rank := .Ten, suit := .Spades }] .Stand)
        .ThreeToTwo rfl (by decide)
      simpa using this⟩

/-- C1 (amended to the four input-accepting states): `Table::progress` on an
input-accepting state with a mismatched input — including `none` — returns
`Err` with `WrongInput`, the state passed in returned unchanged, and the
table (shoe and statistics) and sample tape untouched. -/
theorem progress_wrong_input_unchanged (fuel : Nat) (t : Table) (tape : List Nat)
    (s : GameState) (i : Option Input) (hin : isAutoState s = false)
    (hmis : inputMismatch s i = true) :
    Table.progress (fuel + 1) t tape s i = some (t, tape, .err s .WrongInput) := by
  cases s <;> simp only [isAutoState, Bool.true_eq_false] at hin <;>
    (cases i with
     | none => rfl
     | some inp =>
       cases inp <;> first
         | rfl
         | simp [inputMismatch] at hmis)

/-- Witness for `progress_wrong_input_unchanged`: a `Choice` in `Betting`. -/
theorem progress_wrong_input_unchanged_witness :
    Table.progress 1 cTable [] .Betting (some (.Choice true))
      = some (cTable, [], .err .Betting .WrongInput) :=
  progress_wrong_input_unchanged 0 cTable [] .Betting (some (.Choice true))
    (by decide) (by decide)

/-- C1 (counterexample): the claim as stated also requires `Err(WrongInput)`
when `Some(input)` is supplied to a state that accepts none — but the
automatic states' arms of `Table::progress` never inspect `input`: `Shuffle`
fed a `Bet` progresses to `Betting` with `Ok`, the shoe reshuffled as on any
pass through `Shuffle`. -/
theorem progress_auto_state_ignores_input_cex :
    Table.progress 1 cTable [] .Shuffle (some (.Bet 5))
      = some ({ cTable with shoe := (Shoe.new 4 1).shuffle }, [], .ok .Betting) := by
  rfl

/-- C5: with fast-forward off, `Table::bet` validates the bet against the
table limits only: `TooLow` exactly when `min_bet = Some(min)` and
`bet < min`, otherwise `TooHigh` exactly when `max_bet = Some(max)` and
`bet > max`, otherwise `Ok` with `DealFirstPlayerCards` carrying the single
bet — the declared `BetError` has no affordability variant, and the table no
bankroll, so no affordability condition can reject (the source's leftover
`bet > self.chips => CantAfford` arm names a field and a variant that do not
exist; see the development notes). -/
theorem bet_min_max_validation (fuel : Nat) (t : Table) (tape : List Nat) (b : Nat)
    (hff : t.fast_forward = false) :
    Table.progress (fuel + 1) t tape .Betting (some (.Bet b))
      = (if (match t.rules.min_bet with | some min => decide (b < min) | none => false) then
           some (t, tape, .err .Betting (.BetError .TooLow))
         else if (match t.rules.max_bet with | some max => decide (max < b) | none => false) then
           some (t, tape, .err .Betting (.BetError .TooHigh))
         else some (t, tape, .ok (.DealFirstPlayerCards [b] []))) := by
  conv_lhs => rw [Table.progress]
  simp only [isAutoState, hff, Bool.false_eq_true, if_false]

/-- Witness for `bet_min_max_validation`: under the default rules
(`min_bet = 100`, no maximum) a bet of 5 is rejected `TooLow`. -/
theorem bet_min_max_validation_witness :
    Table.progress 1 cTable [] .Betting (some (.Bet 5))
      = some (cTable, [], .err .Betting (.BetError .TooLow)) := by
  have := bet_min_max_validation 0 cTable [] 5 rfl
  simpa [cTable, Rules.default] using this

/-- For two cards of equal rank, the combined value is soft exactly when the
rank is ace: an ace pair combines to Soft 12, every other pair is hard. -/
theorem pair_value_soft (c1 c2 : Card) (hr : c1.rank = c2.rank) :
    ((Value.fromCard c1).add_assign (Value.fromCard c2)).soft = true ↔ c1.rank = Rank.Ace := by
  obtain ⟨r1, s1⟩ := c1
  obtain ⟨r2, s2⟩ := c2
  simp only [Card.rank] at hr ⊢
  subst hr
  cases r1 <;> simp [Value.fromCard, Rank.worth, Value.add_assign]

/-- For a well-formed two-card pair, the cached value's soft flag — which is
what `check_split_allowed` tests — holds exactly when the pair is aces. -/
theorem pair_soft_iff_ace (h : PlayerHand) (hwf : h.wf) (hp : h.is_pair = true) :
    (h.value.soft = true
      ↔ (h.cards.headD { rank := .Two, suit := .Clubs }).rank = Rank.Ace) := by
  have hlen : h.cards.length = 2 := by
    have := hp
    simp only [PlayerHand.is_pair, PlayerHand.size, decide_eq_true_eq] at this
    exact this.1
  match hc : h.cards, hlen with
  | [c1, c2], _ =>
    have hr : c1.rank = c2.rank := by
      have := hp
      simp only [PlayerHand.is_pair, PlayerHand.size, hc, decide_eq_true_eq] at this
      simpa using this.2
    have hv : h.value = (Value.fromCard c1).add_assign (Value.fromCard c2) := by
      have := hwf.2
      simp only [hc] at this
      simpa [handValue] using this
    rw [hv]
    simpa using pair_value_soft c1 c2 hr

/-- C6: with fast-forward off, `Action(Split)` in `PlayPlayerTurn` is
rejected — with the `PlayPlayerTurn` state, shoe and statistics unchanged —
with `NotAPair` when the current hand is not a two-card equal-rank pair; with
`SplitAcesNotAllowed` when it is a pair of aces and the split-aces rule is
off; and with `MaxSplitsReached` when aces pass, `max_splits = Some(max)`
and the turn's hand count exceeds `max`.  Concretely, from a pair of non-ace
tens under `max_splits = Some 2` with fresh tens dealt to the split hands,
the first two split attempts succeed and the third is rejected
`MaxSplitsReached`. -/
theorem split_validation_spec (fuel : Nat) (t : Table) (tape : List Nat)
    (p : List PendingTurn) (c : ActiveTurn) (f : List FinishedTurn) (d : DealerHand)
    (hff : t.fast_forward = false) (hwf : c.current_hand.wf) :
    (c.current_hand.is_pair = false →
        Table.progress (fuel + 1) t tape (.PlayPlayerTurn p c f d) (some (.Action .Split))
          = some (t, tape, .err (.PlayPlayerTurn p c f d) (.SplitError .NotAPair)))
      ∧ (c.current_hand.is_pair = true →
          (c.current_hand.cards.headD { rank := .Two, suit := .Clubs }).rank = Rank.Ace →
          t.rules.split_aces = false →
          Table.progress (fuel + 1) t tape (.PlayPlayerTurn p c f d) (some (.Action .Split))
            = some (t, tape, .err (.PlayPlayerTurn p c f d) (.SplitError .SplitAcesNotAllowed)))
      ∧ (∀ max, c.current_hand.is_pair = true →
          ((c.current_hand.cards.headD { rank := .Two, suit := .Clubs }).rank = Rank.Ace →
            t.rules.split_aces = true) →
          t.rules.max_splits = some max → max < c.num_hands →
          Table.progress (fuel + 1) t tape (.PlayPlayerTurn p c f d) (some (.Action .Split))
            = some (t, tape, .err (.PlayPlayerTurn p c f d) (.SplitError .MaxSplitsReached)))
      ∧ isOkPlayerSplit splitAttempt1 = true
      ∧ isOkPlayerSplit splitAttempt2 = true
      ∧ thirdSplitRejected = true := by
  have hunf : Table.progress (fuel + 1) t tape (.PlayPlayerTurn p c f d) (some (.Action .Split))
      = (match t.check_split_allowed c with
         | some e => some (t, tape, .err (.PlayPlayerTurn p c f d) (.SplitError e))
         | none => some (t, tape, .ok (.PlayerSplit p c f d))) := by
    conv_lhs => rw [Table.progress]
    simp only [isAutoState, hff, Bool.false_eq_true, if_false]
  refine ⟨?_, ?_, ?_, by decide, by decide, by decide⟩
  · intro hnp
    rw [hunf]
    simp [Table.check_split_allowed, hnp]
  · intro hp hace hrule
    have hsoft : c.current_hand.value.soft = true := (pair_soft_iff_ace _ hwf hp).2 hace
    rw [hunf]
    simp [Table.check_split_allowed, hp, hsoft, hrule]
  · intro max hp hrule hmax hcount
    have hsoft2 : ¬ (c.current_hand.value.soft = true ∧ ¬ t.rules.split_aces = true) := by
      rintro ⟨hs, hr⟩
      exact hr (hrule ((pair_soft_iff_ace _ hwf hp).1 hs))
    rw [hunf]
    by_cases hs : c.current_hand.value.soft = true
    · have hr : t.rules.split_aces = true := hrule ((pair_soft_iff_ace _ hwf hp).1 hs)
      simp [Table.check_split_allowed, hp, hs, hr, hmax, hcount]
    · simp [Table.check_split_allowed, hp, hs, hmax, hcount]

/-- Witness for `split_validation_spec`: splitting a ten-seven is rejected
`NotAPair` with everything unchanged. -/
theorem split_validation_spec_witness :
    Table.progress 1 splitTable []
        (.PlayPlayerTurn []
          (ActiveTurn.ofPending (PendingTurn.ofHand
            { bet := 100
              value := { soft := false, total := 17 }
              status := .InPlay
              cards := [{ rank := .Ten, suit := .Clubs }, { rank := .Seven, suit := .Clubs }] }))
          [] cSplitDealer)
        (some (.Action .Split))
      = some (splitTable, [],
          .err (.PlayPlayerTurn []
            (ActiveTurn.ofPending (PendingTurn.ofHand
              { bet := 100
                value := { soft := false, total := 17 }
                status := .InPlay
                cards := [{ rank := .Ten, suit := .Clubs }, { rank := .Seven, suit := .Clubs }] }))
            [] cSplitDealer) (.SplitError .NotAPair)) :=
  (split_validation_spec 0 splitTable [] []
    (ActiveTurn.ofPending (PendingTurn.ofHand
      { bet := 100
        value := { soft := false, total := 17 }
        status := .InPlay
        cards := [{ rank := .Ten, suit := .Clubs }, { rank := .Seven, suit := .Clubs }] }))
    [] cSplitDealer rfl (by decide)).1 (by decide)

/-- One non-fast-forward `progress` call on an automatic state performs
exactly one `stepAuto` transition and returns `Ok`. -/
theorem progress_one_auto (t : Table) (tape : List Nat) (s : GameState) (i : Option Input)
    (hff : t.fast_forward = false) (hauto : isAutoState s = true) :
    Table.progress 1 t tape s i
      = some (applyStep t (stepAuto t.shoe t.rules t.statistics tape s),
          (stepAuto t.shoe t.rules t.statistics tape s).tape,
          .ok (stepAuto t.shoe t.rules t.statistics tape s).state) := by
  rw [Table.progress.eq_def]
  simp [hauto, hff, applyStep]

/-- A fast-forward `progress` call on an automatic state performs one
`stepAuto` transition and keeps going inline while the reached state is
automatic. -/
theorem progress_succ_auto_ffTrue (fuel : Nat) (t : Table) (tape : List Nat) (s : GameState)
    (i : Option Input) (hffT : t.fast_forward = true) (hauto : isAutoState s = true) :
    Table.progress (fuel + 1) t tape s i
      = (if isAutoState (stepAuto t.shoe t.rules t.statistics tape s).state then
           Table.progress fuel (applyStep t (stepAuto t.shoe t.rules t.statistics tape s))
             (stepAuto t.shoe t.rules t.statistics tape s).tape
             (stepAuto t.shoe t.rules t.statistics tape s).state none
         else
           some (applyStep t (stepAuto t.shoe t.rules t.statistics tape s),
             (stepAuto t.shoe t.rules t.statistics tape s).tape,
             .ok (stepAuto t.shoe t.rules t.statistics tape s).state)) := by
  rw [Table.progress.eq_def]
  simp [hauto, hffT, applyStep]

/-- `stepRun` is the identity on input-accepting states. -/
theorem stepRun_not_auto (fuel : Nat) (t : Table) (tape : List Nat) (s : GameState)
    (hin : isAutoState s = false) :
    stepRun fuel t tape s = some (t, tape, .ok s) := by
  cases fuel <;> simp [stepRun, hin]

/-- Simulation, automatic side: starting from an automatic state, one
fast-forward `progress` call with `n` fuel computes exactly what `n`
step-wise `progress` calls (no input, one transition each) compute, up to
the fast-forward flag itself. -/
theorem progress_ff_auto (fuel : Nat) :
    ∀ (t : Table) (tape : List Nat) (s : GameState) (i : Option Input),
      t.fast_forward = false → isAutoState s = true →
      Table.progress fuel { t with fast_forward := true } tape s i
        = (stepRun fuel t tape s).map
            (fun r => ({ r.1 with fast_forward := true }, r.2)) := by
  induction fuel with
  | zero =>
    intro t tape s i hff hauto
    simp [Table.progress, stepRun, hauto]
  | succ fuel ih =>
    intro t tape s i hff hauto
    rw [progress_succ_auto_ffTrue fuel _ tape s i rfl hauto]
    rw [stepRun]
    rw [progress_one_auto t tape s none hff hauto]
    simp only [hauto, if_true]
    by_cases hA : isAutoState (stepAuto t.shoe t.rules t.statistics tape s).state
    · rw [if_pos hA]
      have heq : applyStep { t with fast_forward := true }
            (stepAuto t.shoe t.rules t.statistics tape s)
          = { applyStep t (stepAuto t.shoe t.rules t.statistics tape s)
                with fast_forward := true } := rfl
      rw [heq]
      exact ih (applyStep t (stepAuto t.shoe t.rules t.statistics tape s)) _ _ none hff hA
    · rw [if_neg hA]
      rw [stepRun_not_auto fuel _ _ _ (by simpa using hA)]
      rfl

/-- The common tail of every fast-forward input-state branch: continue inline
on an automatic state, stop on an input-accepting one — equals step-wise
execution from that state. -/
theorem progress_goNext (fuel : Nat) (t : Table) (tape : List Nat) (s' : GameState)
    (hff : t.fast_forward = false) :
    (if isAutoState s' then Table.progress fuel { t with fast_forward := true } tape s' none
     else some ({ t with fast_forward := true }, tape, .ok s'))
      = (stepRun fuel t tape s').map (fun r => ({ r.1 with fast_forward := true }, r.2)) := by
  by_cases hA : isAutoState s'
  · rw [if_pos hA]
    exact progress_ff_auto fuel t tape s' none hff hA
  · rw [if_neg (by simp [hA]), stepRun_not_auto fuel t tape s' (by simpa using hA)]
    rfl

/-- C8 (amended): for every input that the step-wise mode accepts, one
fast-forward `progress` call computes exactly what the step-wise mode
computes — the accepted transition followed by every automatic transition,
one `progress` call each, until the next input-accepting state — with the
same resulting state, shoe, statistics and remaining sample tape, differing
only in the fast-forward flag itself.  (With an input the step-wise mode
rejects, the two modes diverge: see the counterexample.) -/
theorem fast_forward_equiv_stepwise (fuel : Nat) (t : Table) (tape : List Nat)
    (s : GameState) (i : Option Input) (t' : Table) (tape' : List Nat) (s' : GameState)
    (hff : t.fast_forward = false)
    (hok : Table.progress 1 t tape s i = some (t', tape', .ok s')) :
    Table.progress (fuel + 1) { t with fast_forward := true } tape s i
      = (stepRun fuel t' tape' s').map
          (fun r => ({ r.1 with fast_forward := true }, r.2)) := by
  by_cases hauto : isAutoState s = true
  · -- automatic state: one inline transition, then the simulation lemma
    rw [progress_one_auto t tape s i hff hauto] at hok
    simp only [Option.some.injEq, Prod.mk.injEq, ProgressResult.ok.injEq] at hok
    obtain ⟨rfl, rfl, rfl⟩ := hok
    rw [progress_ff_auto (fuel + 1) t tape s i hff hauto, stepRun,
      progress_one_auto t tape s none hff hauto]
    simp [hauto]
  · have hin : isAutoState s = false := by simpa using hauto
    rw [Table.progress.eq_def] at hok
    rw [Table.progress.eq_def]
    cases s <;> simp only [isAutoState] at hin <;> try simp at hin
    next =>
      cases i with
      | none => simp [isAutoState] at hok
      | some inp =>
        cases inp with
        | Bet b =>
          simp only [isAutoState, Bool.false_eq_true, if_false, hff] at hok
          split_ifs at hok with h1 h2 <;> simp only [Option.some.injEq, Prod.mk.injEq] at hok
          · exact absurd hok.2.2 (by simp)
          · exact absurd hok.2.2 (by simp)
          · obtain ⟨rfl, rfl, h3⟩ := hok
            obtain rfl : GameState.DealFirstPlayerCards [b] [] = s' := by
              simpa using h3
            simp only [isAutoState, Bool.false_eq_true, if_false]
            exact progress_ff_auto fuel t tape _ none hff rfl
        | Choice c => simp [isAutoState] at hok
        | Action a => simp [isAutoState] at hok
    next player_turns dealer_hand =>
      cases i with
      | none => simp [isAutoState] at hok
      | some inp =>
        cases inp with
        | Bet b => simp [isAutoState] at hok
        | Action a => simp [isAutoState] at hok
        | Choice c =>
          simp only [isAutoState, Bool.false_eq_true, if_false, hff, Bool.false_and,
            Bool.and_self, Option.some.injEq, Prod.mk.injEq] at hok
          obtain ⟨rfl, rfl, h3⟩ := hok
          obtain rfl : _ = s' := by
            exact (ProgressResult.ok.injEq _ _).mp h3
          simp only [isAutoState, Bool.false_eq_true, if_false, Bool.true_and]
          exact progress_goNext fuel t tape _ hff
    next player_turns dealer_hand =>
      cases i with
      | none => simp [isAutoState] at hok
      | some inp =>
        cases inp with
        | Choice c => simp [isAutoState] at hok
        | Action a => simp [isAutoState] at hok
        | Bet b =>
          simp only [isAutoState, Bool.false_eq_true, if_false, hff, Bool.false_and,
            Option.some.injEq, Prod.mk.injEq] at hok
          obtain ⟨rfl, rfl, h3⟩ := hok
          obtain rfl : _ = s' := (ProgressResult.ok.injEq _ _).mp h3
          simpa using progress_ff_auto fuel t tape
            (.CheckDealerHoleCard (applyInsurance player_turns [b]) dealer_hand) none hff rfl
    next pending_turns current_turn finished_turns dealer_hand =>
      cases i with
      | none => simp [isAutoState] at hok
      | some inp =>
        cases inp with
        | Bet b => simp [isAutoState] at hok
        | Choice c => simp [isAutoState] at hok
        | Action a =>
          cases a with
          | Hit =>
            simp only [isAutoState, Bool.false_eq_true, if_false, hff,
              Option.some.injEq, Prod.mk.injEq] at hok
            obtain ⟨rfl, rfl, h3⟩ := hok
            obtain rfl : _ = s' := (ProgressResult.ok.injEq _ _).mp h3
            simp only [isAutoState, Bool.false_eq_true, if_false, if_true]
            exact progress_ff_auto fuel t tape _ none hff rfl
          | Stand =>
            simp only [isAutoState, Bool.false_eq_true, if_false, hff,
              Option.some.injEq, Prod.mk.injEq] at hok
            obtain ⟨rfl, rfl, h3⟩ := hok
            obtain rfl : _ = s' := (ProgressResult.ok.injEq _ _).mp h3
            simp only [isAutoState, Bool.false_eq_true, if_false, if_true]
            exact progress_ff_auto fuel t tape _ none hff rfl
          | Double =>
            simp only [isAutoState, Bool.false_eq_true, if_false, hff] at hok
            cases hchk : Table.check_double_allowed t current_turn with
            | some e => rw [hchk] at hok; simp at hok
            | none =>
              rw [hchk] at hok
              simp only [Option.some.injEq, Prod.mk.injEq] at hok
              obtain ⟨rfl, rfl, h3⟩ := hok
              obtain rfl : _ = s' := (ProgressResult.ok.injEq _ _).mp h3
              simp only [isAutoState, Bool.false_eq_true, if_false, if_true]
              exact progress_ff_auto fuel t tape _ none hff rfl
          | Split =>
            simp only [isAutoState, Bool.false_eq_true, if_false, hff] at hok
            cases hchk : Table.check_split_allowed t current_turn with
            | some e => rw [hchk] at hok; simp at hok
            | none =>
              rw [hchk] at hok
              simp only [Option.some.injEq, Prod.mk.injEq] at hok
              obtain ⟨rfl, rfl, h3⟩ := hok
              obtain rfl : _ = s' := (ProgressResult.ok.injEq _ _).mp h3
              simp only [isAutoState, Bool.false_eq_true, if_false, if_true]
              exact progress_ff_auto fuel t tape _ none hff rfl
          | Surrender =>
            simp only [isAutoState, Bool.false_eq_true, if_false, hff] at hok
            cases hchk : Table.check_surrender_allowed t current_turn.current_hand with
            | some e => rw [hchk] at hok; simp at hok
            | none =>
              rw [hchk] at hok
              simp only [Option.some.injEq, Prod.mk.injEq] at hok
              obtain ⟨rfl, rfl, h3⟩ := hok
              obtain rfl : _ = s' := (ProgressResult.ok.injEq _ _).mp h3
              simp only [isAutoState, Bool.false_eq_true, if_false, if_true]
              exact progress_ff_auto fuel t tape _ none hff rfl

/-- C8 (counterexample): on the same state and the same input sequence — one
`Action(Surrender)` with late surrender disabled — the step-wise mode rejects
the input and leaves everything unchanged, while the fast-forward mode skips
the `check_surrender_allowed` validation, surrenders the hand, finishes the
round inline and updates the statistics: the two modes do not produce the
same final state, payouts and statistics for every input sequence. -/
theorem fast_forward_diverges_on_rejected_input_cex :
    Table.progress 1 cSurTable [] cSurState (some (.Action .Surrender))
        = some (cSurTable, [], .err cSurState (.SurrenderError .LateSurrenderNotAllowed))
      ∧ Table.progress 9 { cSurTable with fast_forward := true } [] cSurState
          (some (.Action .Surrender))
        = some ({ cSurTable with
              fast_forward := true
              statistics := [([{ hands := [{ mix17Hand with status := .Surrendered }]
                                 insurance_bet := 0 }],
                { cSplitDealer with status := .Stood })] }, [], .ok .Betting) := by
  constructor
  · rfl
  · decide

/-- Witness for `fast_forward_equiv_stepwise`: an accepted bet of 100 under
the default rules, with a tape dealing ten, six, seven, five. -/
theorem fast_forward_equiv_stepwise_witness :
    Table.progress 13 { cTable with fast_forward := true } [32, 16, 20, 12] .Betting
        (some (.Bet 100))
      = (stepRun 12 cTable [32, 16, 20, 12] (.DealFirstPlayerCards [100] [])).map
          (fun r => ({ r.1 with fast_forward := true }, r.2)) :=
  fast_forward_equiv_stepwise 12 cTable [32, 16, 20, 12] .Betting (some (.Bet 100))
    cTable [32, 16, 20, 12] (.DealFirstPlayerCards [100] []) rfl (by decide)
